import Mathlib

/-!
Shallow embedding of the `rust-thread-pool` library (`src/lib.rs`) and proofs
about its construction, submission, worker-loop and teardown protocols.

Modelling conventions, tied to the source:

* `Job` (`type Job = Box<dyn FnOnce() + Send + 'static>`, lib.rs:11) is a
  single-invocation callable.  Its body is irrelevant to the protocol; only
  its identity matters for delivery/invocation counting, so a job is modelled
  by a `Nat` label.  `Box::new(f)` is the identity on labels.
* `Message` (lib.rs:20-23) is the two-variant tagged union from the source.
* `Worker` (lib.rs:30-33) keeps its integer `id` and an `Option` thread
  handle; a spawned thread is represented by a token (we reuse the worker
  index as the token).
* The single mpsc channel is modelled by a `SysState`: the FIFO `queue` of
  messages, the number `receiverRefs` of live `Arc` clones of the receiving
  endpoint (in `ThreadPool::new`, lib.rs:92-99, the original `Arc` is dropped
  when `new` returns, so the count equals the number of live worker threads;
  the `Receiver` is deallocated, closing the channel, exactly when this count
  reaches 0), and the `execLog` of jobs invoked so far.  `send(..).unwrap()`
  panics when the receiving endpoint is gone; a panic is modelled by `none`
  of an `Option` result.
* Worker-thread execution (the `thread::spawn` loop, lib.rs:43-56) is
  modelled three ways, each faithful to the same loop: `workerLoop` gives one
  worker's dispatch on the stream of messages it dequeues; `drainFull` gives
  the deterministic collective draining of the FIFO queue by a set of
  workers (each step, some worker removes the head; a `NewJob` is invoked,
  a `Terminate` stops that worker); `stepAct`/`runTrace` give arbitrary
  interleavings of concurrent submitters and worker dequeues for the
  delivery-counting arguments.
-/

namespace RustThreadPool

/-- A job label: `type Job = Box<dyn FnOnce() + Send + 'static>` (lib.rs:11);
only the identity of the callable matters for the protocol. -/
abbrev Job : Type := Nat

/-- `enum Message { NewJob(Job), Terminate }` (lib.rs:20-23). -/
inductive Message : Type where
  | NewJob (job : Nat)
  | Terminate
deriving DecidableEq, Repr

/-- `struct Worker { id: usize, handle: Option<thread::JoinHandle<()>> }`
(lib.rs:30-33).  A join handle is a token naming the spawned thread. -/
structure Worker : Type where
  id : Nat
  handle : Option Nat
deriving DecidableEq, Repr

/-- `Worker::new(id, receiver)` (lib.rs:42-62): spawns the worker thread
(whose behaviour is modelled separately) and returns
`Worker { handle: Some(handle), id }`.  The shared receiver endpoint is
global in the model (there is exactly one channel), so only `id` is taken. -/
def Worker.new (id : Nat) : Worker :=
  { id := id, handle := some id }

/-- `struct ThreadPool { workers: Vec<Worker>, sender: mpsc::Sender<Message> }`
(lib.rs:71-74).  The sender endpoint is a token naming the one channel. -/
structure ThreadPool : Type where
  workers : List Worker
  sender : Nat
deriving DecidableEq, Repr

/-- Channel-and-execution state shared by the pool and its workers.
`queue` is the FIFO contents of the mpsc channel; `receiverRefs` is the
`Arc` strong count of the receiving endpoint (= number of live worker
threads once `new` has returned); `execLog` lists the jobs invoked so far,
in invocation order. -/
structure SysState : Type where
  queue : List Message
  receiverRefs : Nat
  execLog : List Nat
deriving DecidableEq, Repr

/-- `sender.send(m)`: appends to the FIFO queue; returns an error (here
`none`) iff the receiving endpoint has been deallocated
(`receiverRefs = 0`). -/
def send (s : SysState) (m : Message) : Option SysState :=
  if s.receiverRefs = 0 then none
  else some { s with queue := s.queue ++ [m] }

/-- `ThreadPool::new(size)` (lib.rs:85-102): `assert!(size > 0)` (a panic,
modelled by `none`, when the assertion fails), then create the channel,
wrap the receiver in `Arc<Mutex<_>>`, and push `Worker::new(i, clone)` for
`i in 0..size`.  Returns the pool together with the initial channel state:
empty queue, `size` live worker threads each holding one `Arc` clone (the
original clone in `new` is dropped when `new` returns), nothing executed. -/
def ThreadPool.new (size : Nat) : Option (ThreadPool × SysState) :=
  if size > 0 then
    some ({ workers := (List.range size).map Worker.new, sender := 0 },
          { queue := [], receiverRefs := size, execLog := [] })
  else none

/-- `ThreadPool::run(f)` (lib.rs:110-117): `let job = Box::new(f);
self.sender.send(Message::NewJob(job)).unwrap()`.  The `unwrap` turns a
send error into a panic (`none`).  `run` takes `&self`, so the pool value
is returned unchanged. -/
def ThreadPool.run (p : ThreadPool) (s : SysState) (f : Nat) : Option (ThreadPool × SysState) :=
  let job : Job := f
  (send s (Message.NewJob job)).map (fun s2 => (p, s2))

/-- Phase 1 of `Drop::drop` (lib.rs:128-130): one `send(Terminate).unwrap()`
per worker; the first failing send panics (`none`). -/
def broadcastTerminate : SysState → Nat → Option SysState
  | s, 0 => some s
  | s, k + 1 =>
    match send s Message.Terminate with
    | none => none
    | some s2 => broadcastTerminate s2 k

/-- Collective draining of the FIFO queue by `live` worker threads, each
running the loop of lib.rs:43-56.  Whichever worker is scheduled next
removes the head message: a `NewJob` is invoked (appended to the executed
list) and the worker loops; a `Terminate` makes that worker break out, so
one fewer worker remains.  Returns (jobs executed, queue left over, workers
still live and blocked once the queue is empty).  Which physical worker
takes each message does not affect this function, so it models every
interleaving of the dequeue race. -/
def drainFull : List Message → Nat → List Nat × List Message × Nat
  | q, 0 => ([], q, 0)
  | [], live + 1 => ([], [], live + 1)
  | Message.NewJob j :: rest, live + 1 =>
    let r := drainFull rest (live + 1)
    (j :: r.1, r.2.1, r.2.2)
  | Message.Terminate :: rest, live + 1 => drainFull rest live

/-- The join phase of `Drop::drop` (lib.rs:132-138) takes every worker's
handle (`worker.handle.take()`), leaving `None` behind in each slot. -/
def dropPoolState (p : ThreadPool) : ThreadPool :=
  { p with workers := p.workers.map (fun w => { w with handle := none }) }

/-- The ids of the workers actually joined by the join phase: those whose
handle slot still holds a handle, in vector (= index) order. -/
def dropJoins (p : ThreadPool) : List Nat :=
  (p.workers.filter (fun w => w.handle.isSome)).map (fun w => w.id)

/-- `<ThreadPool as Drop>::drop` (lib.rs:127-139): broadcast one `Terminate`
per worker (panicking, `none`, if a send fails), then join each worker in
index order.  The joins block until every live worker thread has drained
its share of the queue and exited; a worker thread that exits drops its
`Arc` clone of the receiver, so after a completed teardown `receiverRefs`
is 0.  Returns the pool with all handles taken, the final channel state,
and the list of worker ids joined; `none` when teardown does not complete
normally (a send panicked, or a live worker never receives a `Terminate`
and the join blocks forever). -/
def dropThreadPool (p : ThreadPool) (s : SysState) :
    Option (ThreadPool × SysState × List Nat) :=
  match broadcastTerminate s p.workers.length with
  | none => none
  | some s1 =>
    let d := drainFull s1.queue s1.receiverRefs
    if d.2.2 = 0 then
      some (dropPoolState p,
            { queue := d.2.1, receiverRefs := 0, execLog := s1.execLog ++ d.1 },
            dropJoins p)
    else none

/-- Observable event order of `Drop::drop` (lib.rs:127-139): the first loop
emits one `Terminate` send per worker, then the second loop joins each
worker whose handle is present, in vector order. -/
inductive DropEvent : Type where
  | sendTerminate
  | join (id : Nat)
deriving DecidableEq, Repr

/-- The sequence of channel sends and thread joins performed by
`Drop::drop`, in program order: all sends of phase 1, then the joins of
phase 2. -/
def dropEvents (p : ThreadPool) : List DropEvent :=
  p.workers.map (fun _ => DropEvent.sendTerminate) ++
    (dropJoins p).map (fun i => DropEvent.join i)

/-- One worker's loop (lib.rs:43-56) applied to the stream of messages this
worker dequeues: returns the jobs it invokes, in order, and whether the
thread function returned normally (`break` on `Terminate`).  An exhausted
stream with no `Terminate` leaves the worker blocked in `recv` (`false`). -/
def workerLoop : List Message → List Nat × Bool
  | [] => ([], false)
  | Message.NewJob j :: rest =>
    let r := workerLoop rest
    (j :: r.1, r.2)
  | Message.Terminate :: _ => ([], true)

/-- Queue state at the moment teardown is triggered with `pending` jobs still
unconsumed, after the phase-1 broadcast of lib.rs:128-130 has appended one
`Terminate` per worker behind them, drained by the `n` worker threads. -/
def teardownDrain (pending : List Nat) (n : Nat) : List Nat × List Message × Nat :=
  drainFull (pending.map Message.NewJob ++ List.replicate n Message.Terminate) n

/-!
Interleaving model for concurrent submission and dequeueing.  A `ThreadPool`
is shared by reference: any number of threads may call `run` (each call one
`send`), `Drop::drop` sends `Terminate`s, and each live worker thread, when
scheduled, locks the receiver and takes the head of the FIFO queue
(lib.rs:44).  A trace of `Act`s is an arbitrary interleaving of these
steps; the scheduler chooses which worker dequeues.
-/

/-- Concurrent state: the channel queue, the set (list) of live worker ids,
and the log of (worker id, job) invocations. -/
structure MPState : Type where
  queue : List Message
  live : List Nat
  execLog : List (Nat × Nat)
deriving DecidableEq, Repr

/-- The atomic actions of the interleaving model. -/
inductive Act : Type where
  | submit (j : Nat)
  | submitT
  | deq (w : Nat)
deriving DecidableEq, Repr

/-- One atomic step of the system: a submitter enqueues `NewJob j`
(`ThreadPool::run`, lib.rs:116), the dropping thread enqueues a `Terminate`
(lib.rs:129), or the scheduler lets live worker `w` acquire the receiver
lock and `recv` the head message (lib.rs:44-55): a `NewJob` is invoked by
`w` and logged, a `Terminate` removes `w` from the live set; with an empty
queue `recv` blocks and the state is unchanged. -/
def stepAct (s : MPState) (a : Act) : MPState :=
  match a with
  | Act.submit j => { s with queue := s.queue ++ [Message.NewJob j] }
  | Act.submitT => { s with queue := s.queue ++ [Message.Terminate] }
  | Act.deq w =>
    if w ∈ s.live then
      match s.queue with
      | [] => s
      | Message.NewJob j :: rest =>
        { s with queue := rest, execLog := s.execLog ++ [(w, j)] }
      | Message.Terminate :: rest =>
        { s with queue := rest, live := s.live.erase w }
    else s

/-- Run a trace of steps from a state. -/
def runTrace (s : MPState) : List Act → MPState
  | [] => s
  | a :: tr => runTrace (stepAct s a) tr

/-- Number of `NewJob j` messages in a queue. -/
def countJobQ (j : Nat) : List Message → Nat
  | [] => 0
  | Message.NewJob k :: rest => (if k = j then 1 else 0) + countJobQ j rest
  | Message.Terminate :: rest => countJobQ j rest

/-- Number of invocations of job `j` in an execution log. -/
def countExec (j : Nat) : List (Nat × Nat) → Nat
  | [] => 0
  | e :: rest => (if e.2 = j then 1 else 0) + countExec j rest

/-- Number of submissions of job `j` in a trace. -/
def countSubmit (j : Nat) : List Act → Nat
  | [] => 0
  | Act.submit k :: tr => (if k = j then 1 else 0) + countSubmit j tr
  | Act.submitT :: tr => countSubmit j tr
  | Act.deq _ :: tr => countSubmit j tr

/-! ### Helper lemmas -/

theorem map_const_replicate {α β : Type} (c : β) (l : List α) :
    l.map (fun _ => c) = List.replicate l.length c := by
  induction l with
  | nil => rfl
  | cons a t ih => simp [List.replicate, ih]

theorem map_worker_new_ids (l : List Nat) :
    (l.map Worker.new).map (fun w => w.id) = l := by
  induction l with
  | nil => rfl
  | cons a t ih => simp [Worker.new, ih]

theorem filter_map_worker_new (l : List Nat) :
    ((l.map Worker.new).filter (fun w => w.handle.isSome)).map (fun w => w.id) = l := by
  induction l with
  | nil => rfl
  | cons a t ih => simp [Worker.new, List.filter, ih]

theorem map_taken_ids (ws : List Worker) :
    (ws.map (fun w => { w with handle := none })).map (fun w => w.id) =
      ws.map (fun w => w.id) := by
  induction ws with
  | nil => rfl
  | cons a t ih => simp [ih]

theorem dropJoins_taken (p : ThreadPool) : dropJoins (dropPoolState p) = [] := by
  unfold dropJoins dropPoolState
  induction p.workers with
  | nil => rfl
  | cons a t ih => simp [List.filter, ih]

theorem new_inv (n : Nat) (p : ThreadPool) (s : SysState)
    (h : ThreadPool.new n = some (p, s)) :
    p.workers = (List.range n).map Worker.new ∧
      s = { queue := [], receiverRefs := n, execLog := [] } := by
  by_cases hn : 0 < n
  · unfold ThreadPool.new at h
    rw [if_pos hn] at h
    obtain ⟨h1, h2⟩ := Prod.mk.injEq .. ▸ Option.some.injEq .. ▸ h
    exact ⟨h1 ▸ rfl, h2 ▸ rfl⟩
  · unfold ThreadPool.new at h
    rw [if_neg hn] at h
    exact absurd h (by simp)

/-! ### Claim theorems -/

/-- Claim C1: `ThreadPool::new(size)` panics (fails fatally) when
`size == 0` — the `assert!(size > 0)` at lib.rs:87 fires — and for every
`size ≥ 1` the precondition check passes and construction proceeds to
create the pool. -/
theorem new_zero_panics_pos_succeeds :
    ThreadPool.new 0 = none ∧
      ∀ n : Nat, 1 ≤ n → ∃ pr, ThreadPool.new n = some pr := by
  constructor
  · rfl
  · intro n hn
    unfold ThreadPool.new
    rw [if_pos (show n > 0 from hn)]
    exact ⟨_, rfl⟩

/-- Witness for C1 at `size = 3`. -/
theorem new_zero_panics_pos_succeeds_witness :
    ∃ pr, ThreadPool.new 3 = some pr :=
  new_zero_panics_pos_succeeds.2 3 (by decide)

/-- Claim C2: a pool built by `ThreadPool::new(size)` has exactly `size`
workers with ids `0, 1, ..., size-1` in position order (lib.rs:90-101), and
neither `run` (which takes `&self` and only sends) nor the teardown join
phase (which only takes handles, lib.rs:132-138) adds or removes a worker,
so the worker count equals `size` for the pool's entire lifetime. -/
theorem new_workers_count_ids_stable (n : Nat) (p : ThreadPool) (s : SysState)
    (h : ThreadPool.new n = some (p, s)) :
    p.workers.length = n ∧
      p.workers.map (fun w => w.id) = List.range n ∧
      (∀ s0 f p2 s2, ThreadPool.run p s0 f = some (p2, s2) → p2.workers = p.workers) ∧
      (dropPoolState p).workers.length = n ∧
      (dropPoolState p).workers.map (fun w => w.id) = List.range n := by
  obtain ⟨hw, -⟩ := new_inv n p s h
  refine ⟨?_, ?_, ?_, ?_, ?_⟩
  · rw [hw, List.length_map, List.length_range]
  · rw [hw, map_worker_new_ids]
  · intro s0 f p2 s2 hrun
    cases hsend : send s0 (Message.NewJob f) with
    | none =>
      simp only [ThreadPool.run, hsend, Option.map_none'] at hrun
      exact Option.noConfusion hrun
    | some s3 =>
      simp only [ThreadPool.run, hsend, Option.map_some', Option.some.injEq,
        Prod.mk.injEq] at hrun
      rw [← hrun.1]
  · rw [dropPoolState, hw]
    simp only [List.length_map, List.length_range]
  · rw [dropPoolState]
    simp only [map_taken_ids]
    rw [hw, map_worker_new_ids]

/-- Witness for C2 at `size = 2`. -/
theorem new_workers_count_ids_stable_witness :
    (ThreadPool.mk [Worker.new 0, Worker.new 1] 0).workers.length = 2 ∧
      (ThreadPool.mk [Worker.new 0, Worker.new 1] 0).workers.map (fun w => w.id) =
        List.range 2 ∧
      (∀ s0 f p2 s2,
        ThreadPool.run (ThreadPool.mk [Worker.new 0, Worker.new 1] 0) s0 f = some (p2, s2) →
          p2.workers = (ThreadPool.mk [Worker.new 0, Worker.new 1] 0).workers) ∧
      (dropPoolState (ThreadPool.mk [Worker.new 0, Worker.new 1] 0)).workers.length = 2 ∧
      (dropPoolState (ThreadPool.mk [Worker.new 0, Worker.new 1] 0)).workers.map
          (fun w => w.id) = List.range 2 :=
  new_workers_count_ids_stable 2 (ThreadPool.mk [Worker.new 0, Worker.new 1] 0)
    (SysState.mk [] 2 []) rfl

/-- Claim C4: teardown of a pool with `n` workers enqueues exactly `n`
`Terminate` messages (one per worker, first loop of lib.rs:128-130), all of
them before the first join begins, and then joins the workers in index
order `0, 1, ..., n-1` (second loop, lib.rs:132-138). -/
theorem drop_terminates_before_joins (n : Nat) (p : ThreadPool) (s : SysState)
    (h : ThreadPool.new n = some (p, s)) :
    dropEvents p =
      List.replicate n DropEvent.sendTerminate ++
        (List.range n).map (fun i => DropEvent.join i) := by
  obtain ⟨hw, -⟩ := new_inv n p s h
  unfold dropEvents dropJoins
  rw [hw, map_const_replicate, List.length_map, List.length_range, List.map_map]
  have hfil : (((List.range n).map Worker.new).filter
      (fun w => w.handle.isSome)).map (fun w => w.id) = List.range n :=
    filter_map_worker_new (List.range n)
  have : (((List.range n).map Worker.new).filter (fun w => w.handle.isSome)).map
      ((fun i => DropEvent.join i) ∘ fun w => w.id) =
      (List.range n).map (fun i => DropEvent.join i) := by
    rw [← List.map_map, hfil]
  rw [this]

theorem send_closed_none (s : SysState) (m : Message) (h : s.receiverRefs = 0) :
    send s m = none := by
  unfold send
  rw [if_pos h]

theorem dropThreadPool_closed_none (p : ThreadPool) (s : SysState)
    (h : s.receiverRefs = 0) (hw : p.workers ≠ []) :
    dropThreadPool p s = none := by
  obtain ⟨k, hk⟩ : ∃ k, p.workers.length = k + 1 := by
    cases hl : p.workers with
    | nil => exact absurd hl hw
    | cons a t => exact ⟨t.length, rfl⟩
  unfold dropThreadPool
  rw [hk]
  unfold broadcastTerminate
  rw [send_closed_none s Message.Terminate h]

/-- Claim C3: `ThreadPool::run(f)` boxes the callable as a `Job`, wraps it as
`Message::NewJob`, and sends exactly that one message on the channel
(lib.rs:114-116): the queue grows by exactly `[NewJob f]` and nothing else
changes — in particular `execLog` is untouched, so `run` returns after the
send without waiting for the job to execute and reports no completion or
result. -/
theorem run_sends_one_newjob (p : ThreadPool) (s : SysState) (f : Nat)
    (h : 0 < s.receiverRefs) :
    ThreadPool.run p s f =
      some (p, { s with queue := s.queue ++ [Message.NewJob f] }) := by
  have hz : s.receiverRefs ≠ 0 := Nat.pos_iff_ne_zero.mp h
  simp [ThreadPool.run, send, hz]

/-- Witness for C3 on a one-worker pool and job `42`. -/
theorem run_sends_one_newjob_witness :
    ThreadPool.run (ThreadPool.mk [Worker.new 0] 0) (SysState.mk [] 1 []) 42 =
      some (ThreadPool.mk [Worker.new 0] 0, SysState.mk [Message.NewJob 42] 1 []) :=
  run_sends_one_newjob (ThreadPool.mk [Worker.new 0] 0) (SysState.mk [] 1 []) 42
    (by decide)

/-- Claim C7: each worker loop (lib.rs:43-56) dispatches every dequeued
message in exactly one of two ways: on `NewJob` it invokes the job
synchronously and returns to waiting for the next message; on `Terminate`
it breaks and the thread function returns normally; and `Message` has no
third variant, so there is no other transition. -/
theorem worker_dispatch_two_ways :
    (∀ (j : Nat) (ms : List Message),
        workerLoop (Message.NewJob j :: ms) =
          (j :: (workerLoop ms).1, (workerLoop ms).2)) ∧
      (∀ ms : List Message, workerLoop (Message.Terminate :: ms) = ([], true)) ∧
      (∀ m : Message, (∃ j, m = Message.NewJob j) ∨ m = Message.Terminate) := by
  refine ⟨fun j ms => rfl, fun ms => rfl, fun m => ?_⟩
  cases m with
  | NewJob j => exact Or.inl ⟨j, rfl⟩
  | Terminate => exact Or.inr rfl

/-- Claim C8: when the receiving endpoint is gone (`receiverRefs = 0`), a
send fails, and both `run` (lib.rs:116) and the teardown broadcast
(lib.rs:129) surface the failure as a panic (`unwrap`, modelled by `none`)
at the point it occurs — neither returns a recoverable result. -/
theorem send_failure_is_fatal (p : ThreadPool) (s : SysState) (f : Nat)
    (h : s.receiverRefs = 0) (hw : p.workers ≠ []) :
    send s (Message.NewJob f) = none ∧
      ThreadPool.run p s f = none ∧
      dropThreadPool p s = none := by
  refine ⟨send_closed_none s _ h, ?_, dropThreadPool_closed_none p s h hw⟩
  simp only [ThreadPool.run, send_closed_none s _ h, Option.map_none']

/-- Witness for C8 on a one-worker pool whose receiver is gone. -/
theorem send_failure_is_fatal_witness :
    send (SysState.mk [] 0 []) (Message.NewJob 5) = none ∧
      ThreadPool.run (ThreadPool.mk [Worker.mk 0 none] 0) (SysState.mk [] 0 []) 5 = none ∧
      dropThreadPool (ThreadPool.mk [Worker.mk 0 none] 0) (SysState.mk [] 0 []) = none :=
  send_failure_is_fatal (ThreadPool.mk [Worker.mk 0 none] 0) (SysState.mk [] 0 []) 5
    rfl (by decide)

/-- Claim C10: `run` takes `&self` and only sends (lib.rs:110-117): the
workers field is entirely unchanged (same ids, same still-present handles),
the sender endpoint is unchanged, and the only effect on state is one
`NewJob` message appended to the channel queue. -/
theorem run_frame (p p2 : ThreadPool) (s s2 : SysState) (f : Nat)
    (h : ThreadPool.run p s f = some (p2, s2)) :
    p2.workers = p.workers ∧ p2.sender = p.sender ∧
      s2.queue = s.queue ++ [Message.NewJob f] ∧
      s2.receiverRefs = s.receiverRefs ∧ s2.execLog = s.execLog := by
  cases hsend : send s (Message.NewJob f) with
  | none =>
    simp only [ThreadPool.run, hsend, Option.map_none'] at h
    exact Option.noConfusion h
  | some s3 =>
    simp only [ThreadPool.run, hsend, Option.map_some', Option.some.injEq,
      Prod.mk.injEq] at h
    obtain ⟨h1, h2⟩ := h
    subst h1
    subst h2
    unfold send at hsend
    by_cases hz : s.receiverRefs = 0
    · rw [if_pos hz] at hsend
      exact Option.noConfusion hsend
    · rw [if_neg hz] at hsend
      rw [← Option.some.inj hsend]
      exact ⟨rfl, rfl, rfl, rfl, rfl⟩

/-- Witness for C10 on a one-worker pool and job `42`. -/
theorem run_frame_witness :
    (ThreadPool.mk [Worker.new 0] 0).workers = (ThreadPool.mk [Worker.new 0] 0).workers ∧
      (ThreadPool.mk [Worker.new 0] 0).sender = (ThreadPool.mk [Worker.new 0] 0).sender ∧
      (SysState.mk [Message.NewJob 42] 1 []).queue = [] ++ [Message.NewJob 42] ∧
      (SysState.mk [Message.NewJob 42] 1 []).receiverRefs =
        (SysState.mk ([] : List Message) 1 ([] : List Nat)).receiverRefs ∧
      (SysState.mk [Message.NewJob 42] 1 []).execLog =
        (SysState.mk ([] : List Message) 1 ([] : List Nat)).execLog :=
  run_frame (ThreadPool.mk [Worker.new 0] 0) (ThreadPool.mk [Worker.new 0] 0)
    (SysState.mk [] 1 []) (SysState.mk [Message.NewJob 42] 1 []) 42 rfl

/-- Witness for C4 at `size = 2`. -/
theorem drop_terminates_before_joins_witness :
    dropEvents (ThreadPool.mk [Worker.new 0, Worker.new 1] 0) =
      List.replicate 2 DropEvent.sendTerminate ++
        (List.range 2).map (fun i => DropEvent.join i) :=
  drop_terminates_before_joins 2 (ThreadPool.mk [Worker.new 0, Worker.new 1] 0)
    (SysState.mk [] 2 []) rfl

theorem drainFull_newJobs (pending : List Nat) (q : List Message) (live : Nat)
    (h : 1 ≤ live) :
    drainFull (pending.map Message.NewJob ++ q) live =
      (pending ++ (drainFull q live).1, (drainFull q live).2) := by
  induction pending with
  | nil => simp
  | cons a t ih =>
    obtain ⟨l, rfl⟩ : ∃ l, live = l + 1 :=
      ⟨live - 1, (Nat.succ_pred_eq_of_pos h).symm⟩
    simp only [List.map_cons, List.cons_append, drainFull, List.append_eq]
    rw [ih]

theorem drainFull_terminates (n : Nat) :
    drainFull (List.replicate n Message.Terminate) n = ([], [], 0) := by
  induction n with
  | zero => rfl
  | succ k ih =>
    simp only [List.replicate, drainFull]
    exact ih

/-- Counterexample to C5 as stated: one worker, job `7` still unconsumed in
the channel when teardown is triggered.  The claim says the job is never
executed and its message simply dropped; instead the teardown drain
invokes job `7` (the worker dequeues the pending `NewJob`, which sits in
the FIFO queue ahead of the `Terminate` that `drop` enqueues behind it). -/
theorem pending_job_runs_at_teardown :
    (teardownDrain [7] 1).1 = [7] ∧ (teardownDrain [7] 1).1 ≠ [] := by
  exact ⟨rfl, by decide⟩

/-- Claim C5 (amended): every job whose `NewJob` message is still unconsumed
in the channel when teardown is triggered IS executed, exactly once and in
submission order, before teardown completes: the phase-1 broadcast
(lib.rs:128-130) enqueues the `Terminate`s behind the pending jobs in the
FIFO channel, so the workers drain and invoke every pending job before any
of them consumes a `Terminate`; afterwards the queue is empty, all workers
have exited (teardown's joins return), and no error is raised. -/
theorem teardown_executes_pending (pending : List Nat) (n : Nat) (h : 1 ≤ n) :
    teardownDrain pending n = (pending, [], 0) := by
  unfold teardownDrain
  rw [drainFull_newJobs pending _ n h, drainFull_terminates]
  simp

/-- Witness for amended C5: three pending jobs, two workers. -/
theorem teardown_executes_pending_witness :
    teardownDrain [1, 2, 3] 2 = ([1, 2, 3], [], 0) :=
  teardown_executes_pending [1, 2, 3] 2 (by decide)

theorem map_taken_idem (ws : List Worker) :
    (ws.map (fun w => { w with handle := none })).map
        (fun w => { w with handle := none }) =
      ws.map (fun w => { w with handle := none }) := by
  induction ws with
  | nil => rfl
  | cons a t ih => simp [ih]

theorem dropPoolState_idem (p : ThreadPool) :
    dropPoolState (dropPoolState p) = dropPoolState p := by
  cases p with
  | mk ws sd => simp [dropPoolState, map_taken_idem]

/-- Counterexample to C6 as stated: a one-worker pool is torn down once
(successfully: handle taken, worker joined, the worker's exit drops the
last `Arc` clone so the receiver is deallocated).  Running the teardown
procedure a second time on the result is not an error-free no-op: its
broadcast phase calls `send(Terminate).unwrap()` (lib.rs:129) on the
now-closed channel, which panics (`none`). -/
theorem second_teardown_panics :
    dropThreadPool (ThreadPool.mk [Worker.mk 0 (some 0)] 0) (SysState.mk [] 1 []) =
        some (ThreadPool.mk [Worker.mk 0 none] 0, SysState.mk [] 0 [], [0]) ∧
      dropThreadPool (ThreadPool.mk [Worker.mk 0 none] 0) (SysState.mk [] 0 []) =
        none :=
  ⟨rfl, rfl⟩

/-- Claim C6 (amended): the join phase of teardown is idempotent — each
worker's thread handle is taken (set to empty) exactly once, so a second
teardown attempt joins no worker and no worker is ever joined twice — but
the second attempt as a whole is not an effect-free, error-free no-op: with
all workers exited the receiving endpoint is gone, so its broadcast phase
panics on the first `send(Terminate).unwrap()`. -/
theorem second_teardown_joins_nothing (p : ThreadPool) (s : SysState)
    (h : s.receiverRefs = 0) (hw : p.workers ≠ []) :
    dropJoins (dropPoolState p) = [] ∧
      dropPoolState (dropPoolState p) = dropPoolState p ∧
      dropThreadPool (dropPoolState p) s = none := by
  refine ⟨dropJoins_taken p, dropPoolState_idem p, ?_⟩
  refine dropThreadPool_closed_none (dropPoolState p) s h ?_
  unfold dropPoolState
  intro hnil
  exact hw (List.map_eq_nil_iff.mp hnil)

/-- Witness for amended C6 on a one-worker pool after its first teardown. -/
theorem second_teardown_joins_nothing_witness :
    dropJoins (dropPoolState (ThreadPool.mk [Worker.mk 0 (some 0)] 0)) = [] ∧
      dropPoolState (dropPoolState (ThreadPool.mk [Worker.mk 0 (some 0)] 0)) =
        dropPoolState (ThreadPool.mk [Worker.mk 0 (some 0)] 0) ∧
      dropThreadPool (dropPoolState (ThreadPool.mk [Worker.mk 0 (some 0)] 0))
        (SysState.mk [] 0 []) = none :=
  second_teardown_joins_nothing (ThreadPool.mk [Worker.mk 0 (some 0)] 0)
    (SysState.mk [] 0 []) rfl (by decide)

theorem countJobQ_append (j : Nat) (q1 q2 : List Message) :
    countJobQ j (q1 ++ q2) = countJobQ j q1 + countJobQ j q2 := by
  induction q1 with
  | nil => simp [countJobQ]
  | cons m t ih =>
    cases m with
    | NewJob k => simp [countJobQ, ih]; omega
    | Terminate => simp [countJobQ, ih]

theorem countExec_append (j : Nat) (l1 l2 : List (Nat × Nat)) :
    countExec j (l1 ++ l2) = countExec j l1 + countExec j l2 := by
  induction l1 with
  | nil => simp [countExec]
  | cons e t ih => simp [countExec, ih]; omega

theorem countSubmit_cons (j : Nat) (a : Act) (tr : List Act) :
    countSubmit j (a :: tr) = countSubmit j [a] + countSubmit j tr := by
  cases a <;> simp [countSubmit]

theorem stepAct_count (s : MPState) (a : Act) (j : Nat) :
    countJobQ j (stepAct s a).queue + countExec j (stepAct s a).execLog =
      countJobQ j s.queue + countExec j s.execLog + countSubmit j [a] := by
  cases a with
  | submit k =>
    simp [stepAct, countSubmit, countJobQ_append, countJobQ]
    omega
  | submitT =>
    simp [stepAct, countSubmit, countJobQ_append, countJobQ]
  | deq w =>
    simp only [stepAct, countSubmit, Nat.add_zero]
    by_cases hw : w ∈ s.live
    · rw [if_pos hw]
      cases hq : s.queue with
      | nil => simp [hq]
      | cons m rest =>
        cases m with
        | NewJob k =>
          simp [countJobQ, countExec_append, countExec]
          omega
        | Terminate =>
          simp [countJobQ]
    · rw [if_neg hw]

theorem runTrace_count (j : Nat) (tr : List Act) (s : MPState) :
    countJobQ j (runTrace s tr).queue + countExec j (runTrace s tr).execLog =
      countJobQ j s.queue + countExec j s.execLog + countSubmit j tr := by
  induction tr generalizing s with
  | nil => simp [runTrace, countSubmit]
  | cons a tr ih =>
    have hstep := stepAct_count s a j
    have htail := ih (stepAct s a)
    unfold runTrace
    rw [htail, countSubmit_cons]
    omega

/-- Claim C9: in the interleaving model of concurrent submitters and
dequeueing workers (lib.rs:44-55, 92-98), messages are conserved: for
every trace and every job `j`, the number of `NewJob j` messages still
queued plus the number of invocations of `j` equals the number of
submissions of `j` — each dequeue removes the head for exactly one worker,
so each submitted job is invoked at most as often as it was submitted,
and a job submitted at most once is never invoked more than once. -/
theorem message_conservation (live0 : List Nat) (tr : List Act) (j : Nat) :
    countJobQ j (runTrace (MPState.mk [] live0 []) tr).queue +
        countExec j (runTrace (MPState.mk [] live0 []) tr).execLog =
      countSubmit j tr ∧
      countExec j (runTrace (MPState.mk [] live0 []) tr).execLog ≤ countSubmit j tr ∧
      (countSubmit j tr ≤ 1 →
        countExec j (runTrace (MPState.mk [] live0 []) tr).execLog ≤ 1) := by
  have h := runTrace_count j tr (MPState.mk [] live0 [])
  simp only [countJobQ, countExec, Nat.zero_add, Nat.add_zero] at h
  exact ⟨by omega, by omega, fun hle => by omega⟩

/-- Witness for C9: one worker, job `5` submitted once, two dequeue
attempts — job `5` is invoked at most once. -/
theorem message_conservation_witness :
    countExec 5 (runTrace (MPState.mk [] [0] [])
        [Act.submit 5, Act.deq 0, Act.deq 0]).execLog ≤ 1 :=
  (message_conservation [0] [Act.submit 5, Act.deq 0, Act.deq 0] 5).2.2 (by decide)

end RustThreadPool
